import Mathlib

/-!
Verification of the gen-toc browser extension's heading-extraction and
TOC-synchronization logic, as a shallow embedding of the JavaScript source
(`content.js`, `background.js`).

The DOM is modelled as a finite tree of elements.  Each element carries the
attributes the extension reads: tag name (lower case), `id`, class list,
`textContent` and its document-relative vertical offset.  Elements are
addressed by paths (lists of child indices), which play the role of object
identity in the live DOM.
-/

namespace GenTOC

/-- Attributes of a DOM element that the extension reads or writes. -/
structure ElemData where
  tag : String
  id : String
  classes : List String
  text : String
  offsetTop : Int
deriving Repr, DecidableEq

/-- A DOM element: its attributes plus its child elements, in document order. -/
inductive Elem where
  | mk (data : ElemData) (children : List Elem)
deriving Repr

/-- The attributes of an element. -/
def Elem.data : Elem → ElemData
  | .mk d _ => d

/-- The child elements of an element. -/
def Elem.children : Elem → List Elem
  | .mk _ cs => cs

/-- A path of child indices addressing a node inside a DOM tree. -/
abbrev Path := List Nat

/-- Look up the node addressed by a path. -/
def getAt? : Elem → Path → Option Elem
  | e, [] => some e
  | e, i :: p =>
    match e.children[i]? with
    | some c => getAt? c p
    | none => none

mutual

/-- Assign the `id` attribute of the element at a path (models
`heading.id = ...` on a live DOM node).  An invalid path leaves the tree
unchanged. -/
def setIdAt : Elem → Path → String → Elem
  | .mk d cs, [], s => .mk { d with id := s } cs
  | .mk d cs, i :: p, s => .mk d (setIdAtList cs i p s)

/-- `setIdAt` applied inside the `i`-th tree of a list of siblings. -/
def setIdAtList : List Elem → Nat → Path → String → List Elem
  | [], _, _, _ => []
  | c :: cs, 0, p, s => setIdAt c p s :: cs
  | c :: cs, n + 1, p, s => c :: setIdAtList cs n p s

end

mutual

/-- Erase every `id` attribute in a tree.  Two trees with the same mask agree
on everything the extractor reads except the ids. -/
def mask : Elem → Elem
  | .mk d cs => .mk { d with id := "" } (maskList cs)

/-- `mask` mapped over a list of trees. -/
def maskList : List Elem → List Elem
  | [] => []
  | c :: cs => mask c :: maskList cs

end

mutual

/-- All paths of a tree, in pre-order (= document order), starting with the
root's empty path. -/
def subPaths : Elem → List Path
  | .mk _ cs => [] :: subPathsAux 0 cs

/-- Paths into a list of sibling subtrees, the first sibling having index `k`. -/
def subPathsAux : Nat → List Elem → List Path
  | _, [] => []
  | k, c :: cs => (subPaths c).map (fun p => k :: p) ++ subPathsAux (k + 1) cs

end

/-- The `id` attribute at a path (`""` when the path is invalid). -/
def idAt (doc : Elem) (p : Path) : String :=
  ((getAt? doc p).map (fun e => e.data.id)).getD ""

/-- The tag name at a path (`""` when the path is invalid). -/
def tagAt (doc : Elem) (p : Path) : String :=
  ((getAt? doc p).map (fun e => e.data.tag)).getD ""

/-- The text content at a path (`""` when the path is invalid). -/
def textAt (doc : Elem) (p : Path) : String :=
  ((getAt? doc p).map (fun e => e.data.text)).getD ""

/-- The class list at a path (`[]` when the path is invalid). -/
def classesAt (doc : Elem) (p : Path) : List String :=
  ((getAt? doc p).map (fun e => e.data.classes)).getD []

/-- The vertical offset at a path (`0` when the path is invalid). -/
def offsetAt (doc : Elem) (p : Path) : Int :=
  ((getAt? doc p).map (fun e => e.data.offsetTop)).getD 0

/-- JavaScript `String.prototype.trim`: strip leading and trailing
whitespace (modelled over the character list). -/
def jsTrim (s : String) : String :=
  String.mk
    (((s.data.dropWhile Char.isWhitespace).reverse.dropWhile Char.isWhitespace).reverse)

/-- Whether a tag name matches the extractor's heading selector
`'h1, h2, h3, h4'` (content.js line 691). -/
def isHeadingTag (t : String) : Bool :=
  t == "h1" || t == "h2" || t == "h3" || t == "h4"

/-- `document.getElementById`: path of the first element in document order
whose id equals `s` (the ids the extension looks up are nonempty). -/
def getElementById? (doc : Elem) (s : String) : Option Path :=
  (subPaths doc).find? (fun p => idAt doc p == s)

/-- `document.querySelector` with a tag selector: first element with that
tag name, in document order. -/
def queryTag? (doc : Elem) (t : String) : Option Path :=
  (subPaths doc).find? (fun p => tagAt doc p == t)

/-- `document.querySelector` with a class selector: first element carrying
that class, in document order. -/
def queryClass? (doc : Elem) (c : String) : Option Path :=
  (subPaths doc).find? (fun p => (classesAt doc p).contains c)

/-- Container selection of `extractHeadings` (content.js lines 663-687): the
candidate list `#main`, `#content`, `#article`, `article`, `main`,
`.content`, `.article`, `document.body`, taking the first non-null entry.
The root path `[]` is `document.body`, which always exists. -/
def selectContainer (doc : Elem) : Path :=
  ((getElementById? doc "main").orElse fun _ =>
    (getElementById? doc "content").orElse fun _ =>
      (getElementById? doc "article").orElse fun _ =>
        (queryTag? doc "article").orElse fun _ =>
          (queryTag? doc "main").orElse fun _ =>
            (queryClass? doc "content").orElse fun _ =>
              queryClass? doc "article").getD []

/-- `document.querySelectorAll('h1, h2, h3, h4')` over the whole document:
all heading paths in document order. -/
def headingPathsAll (doc : Elem) : List Path :=
  (subPaths doc).filter (fun p => isHeadingTag (tagAt doc p))

/-- `container.querySelectorAll('h1, h2, h3, h4')`: heading paths strictly
inside the subtree at `cp`, in document order, as whole-document paths. -/
def headingPathsUnder (doc : Elem) (cp : Path) : List Path :=
  match getAt? doc cp with
  | none => []
  | some c =>
    ((subPaths c).filter (fun q => !q.isEmpty && isHeadingTag (tagAt c q))).map
      (fun q => cp ++ q)

/-- The heading paths found inside the designated container. -/
def containerHeadingPaths (doc : Elem) : List Path :=
  headingPathsUnder doc (selectContainer doc)

/-- A heading record produced by `extractHeadings`: trimmed text, level from
the tag name, anchor id, vertical offset. -/
structure Heading where
  text : String
  level : Nat
  id : String
  position : Int
deriving Repr, DecidableEq

/-- Numeric value of a decimal digit character. -/
def digitVal (c : Char) : Nat :=
  c.toNat - '0'.toNat

/-- `parseInt(heading.tagName.substring(1), 10)` for a heading tag: the
decimal value of the characters after the leading `h`. -/
def headingLevel (tag : String) : Nat :=
  (tag.data.drop 1).foldl (fun n c => n * 10 + digitVal c) 0

/-- The generated anchor id: the string "toc-heading-" followed by the
forEach index. -/
def genId (i : Nat) : String :=
  "toc-heading-" ++ toString i

/-- The per-heading loop of `extractHeadings` (content.js lines 711-741):
trim the text, skip whitespace-only headings, read the level and offset,
assign a generated id when none is present, and push the record.  `i` is the
`forEach` index, which also counts skipped elements.  The document is
threaded because id assignment mutates the live DOM. -/
def extractFrom (doc : Elem) (i : Nat) : List Path → List Heading × Elem
  | [] => ([], doc)
  | p :: ps =>
    match getAt? doc p with
    | none => extractFrom doc (i + 1) ps
    | some e =>
      if jsTrim e.data.text == "" then extractFrom doc (i + 1) ps
      else
        let newId := if e.data.id == "" then genId i else e.data.id
        let doc' := if e.data.id == "" then setIdAt doc p (genId i) else doc
        let rest := extractFrom doc' (i + 1) ps
        (⟨jsTrim e.data.text, headingLevel e.data.tag, newId, e.data.offsetTop⟩ :: rest.1,
          rest.2)

/-- `extractHeadings` (content.js lines 659-745): select the container, query
headings inside it, fall back to the whole document when that query is empty,
then run the per-heading loop.  Returns the records and the (possibly
id-annotated) document. -/
def extractHeadings (doc : Elem) : List Heading × Elem :=
  let inContainer := containerHeadingPaths doc
  let hps := if inContainer.isEmpty then headingPathsAll doc else inContainer
  extractFrom doc 0 hps

/-- The heading paths `extractHeadings` iterates over: the container's
headings, or all of the document's when the container has none. -/
def headingQueryPaths (doc : Elem) : List Path :=
  if (containerHeadingPaths doc).isEmpty then headingPathsAll doc
  else containerHeadingPaths doc

/-- The text/level observation of one matched heading, reading the document
directly: `none` for an invalid path or a whitespace-only heading, otherwise
the trimmed text and the tag's level. -/
def readTextLevel (doc : Elem) (p : Path) : Option (String × Nat) :=
  match getAt? doc p with
  | none => none
  | some e =>
    if jsTrim e.data.text == "" then none
    else some (jsTrim e.data.text, headingLevel e.data.tag)

/-- The full record of one matched heading read directly off the document,
with the id it carries there (used to describe extraction once every emitted
heading already has its id). -/
def readRecord (doc : Elem) (p : Path) : Option Heading :=
  match getAt? doc p with
  | none => none
  | some e =>
    if jsTrim e.data.text == "" then none
    else some ⟨jsTrim e.data.text, headingLevel e.data.tag, e.data.id, e.data.offsetTop⟩

/-! ### Page Agent refresh (content.js `refreshTOC`, lines 205-271) -/

/-- The throttle state of the Page Agent: `window.lastRefreshTime`. -/
structure RefreshState where
  lastRefreshTime : Option Int
deriving Repr, DecidableEq

/-- The throttle test of `refreshTOC` (content.js lines 220-227):
`!force && window.lastRefreshTime && now - last < 500`. -/
def throttleHit (st : RefreshState) (now : Int) : Bool :=
  match st.lastRefreshTime with
  | some t => now - t < 500
  | none => false

/-- Observable outcome of one `refreshTOC` call. -/
structure RefreshResult where
  performedExtraction : Bool
  built : Option (List Heading)
  retryDelayMs : Option Nat
  newState : RefreshState
  retVal : Option Bool
deriving Repr, DecidableEq

/-- One `refreshTOC(force)` call at time `now` (content.js lines 205-271).
`elementsPresent` is the guard that the sidebar's list/loading/no-headings
elements exist; `scan` is what `extractHeadings` yields on the live page.
When the scan is empty a single retry is scheduled after 1500 ms and the
call returns `false`; otherwise the TOC is built and it returns `true`. -/
def refreshTOCRun (elementsPresent : Bool) (force : Bool) (now : Int)
    (st : RefreshState) (scan : List Heading) : RefreshResult :=
  if !elementsPresent then
    { performedExtraction := false, built := none, retryDelayMs := none
      newState := st, retVal := none }
  else if !force && throttleHit st now then
    { performedExtraction := false, built := none, retryDelayMs := none
      newState := st, retVal := none }
  else
    let st' : RefreshState := { lastRefreshTime := some now }
    if scan.isEmpty then
      { performedExtraction := true, built := none, retryDelayMs := some 1500
        newState := st', retVal := some false }
    else
      { performedExtraction := true, built := some scan, retryDelayMs := none
        newState := st', retVal := some true }

/-- Observable outcome of the delayed retry scheduled by `refreshTOC`. -/
structure RetryResult where
  built : Option (List Heading)
  showedNoHeadings : Bool
  retryDelayMs : Option Nat
deriving Repr, DecidableEq

/-- The 1.5-second retry callback of `refreshTOC` (content.js lines 247-264):
re-extract once; build on success, otherwise show the "No headings found"
placeholder.  It never schedules anything further. -/
def refreshRetryRun (retryScan : List Heading) : RetryResult :=
  if retryScan.isEmpty then
    { built := none, showedNoHeadings := true, retryDelayMs := none }
  else
    { built := some retryScan, showedNoHeadings := false, retryDelayMs := none }

/-! ### Change-Detection Monitor (content.js `setupContentChangeDetection`,
lines 799-858) -/

/-- A node appearing in a mutation record: an element or a text node. -/
inductive DomNode where
  | element (e : Elem)
  | textNode (s : String)

/-- One `MutationRecord` delivered to the observer. -/
structure MutationRecord where
  type : String
  addedNodes : List DomNode
  removedNodes : List DomNode

mutual

/-- Whether a tree contains a heading element (itself included). -/
def elemHasHeading : Elem → Bool
  | .mk d cs => isHeadingTag d.tag || elemsHaveHeading cs

/-- Whether any tree of a list contains a heading element. -/
def elemsHaveHeading : List Elem → Bool
  | [] => false
  | c :: cs => elemHasHeading c || elemsHaveHeading cs

end

/-- Whether a mutated node is a heading or contains one
(`/^H[1-4]$/i.test(node.tagName) || node.querySelector('h1, h2, h3, h4')`,
content.js lines 822-835).  Text nodes are skipped by the
`ELEMENT_NODE` check. -/
def nodeRelevant : DomNode → Bool
  | .element e => isHeadingTag e.data.tag || elemsHaveHeading e.children
  | .textNode _ => false

/-- `hasRelevantChanges` (content.js lines 817-844): some childList mutation
added or removed a node that is or contains a heading. -/
def hasRelevantChanges (ms : List MutationRecord) : Bool :=
  ms.any fun m =>
    m.type == "childList" &&
      (m.addedNodes.any nodeRelevant || m.removedNodes.any nodeRelevant)

/-- The debounced observer loop (content.js lines 802-849).  Input: observer
callback invocations `(time, records)` in time order.  State: the pending
`refreshTimeout` fire time, if any.  A relevant batch clears any pending
timer and schedules a refresh 2000 ms later; a pending timer whose fire time
has passed has already fired.  Returns the times at which `refreshTOC()`
actually fires. -/
def observerRun : Option Int → List (Int × List MutationRecord) → List Int
  | pending, [] => pending.toList
  | pending, (t, ms) :: rest =>
    if hasRelevantChanges ms then
      match pending with
      | some f =>
        if f ≤ t then f :: observerRun (some (t + 2000)) rest
        else observerRun (some (t + 2000)) rest
      | none => observerRun (some (t + 2000)) rest
    else
      match pending with
      | some f =>
        if f ≤ t then f :: observerRun none rest
        else observerRun pending rest
      | none => observerRun none rest

/-! ### Sidebar state machine (content.js `initTOC`, `toggleTOCSidebar`,
`setPosition`, `getCurrentPosition`) -/

/-- The persisted preferences (`localStorage` keys `any-toc-position` and
`any-toc-visibility`). -/
structure StoredPrefs where
  position : Option String
  visibility : Option String
deriving Repr, DecidableEq

/-- The CSS-class state of the sidebar and its collapsed button. -/
structure SidebarDom where
  leftClass : Bool
  hiddenClass : Bool
  collapsedLeft : Bool
  collapsedVisible : Bool
deriving Repr, DecidableEq

/-- The class state a fresh `initTOC` gives the newly created sidebar from
the persisted preferences (content.js lines 395-412): `left` classes exactly
when the saved position is `'left'`, hidden/collapsed-visible exactly when
the saved visibility is `'hidden'`. -/
def initTOCSidebar (store : StoredPrefs) : SidebarDom :=
  { leftClass := store.position == some "left"
    hiddenClass := store.visibility == some "hidden"
    collapsedLeft := store.position == some "left"
    collapsedVisible := store.visibility == some "hidden" }

/-- `setPosition(position)` (content.js lines 600-624), with the sidebar
elements present: update the `left` classes and persist the position. -/
def setPosition (position : String) (dom : SidebarDom) (store : StoredPrefs) :
    SidebarDom × StoredPrefs :=
  if position == "left" then
    ({ dom with leftClass := true, collapsedLeft := true },
      { store with position := some "left" })
  else
    ({ dom with leftClass := false, collapsedLeft := false },
      { store with position := some "right" })

/-- `toggleTOCSidebar()` (content.js lines 530-573), with the sidebar
elements present: flip the hidden state and persist the new visibility. -/
def toggleTOCSidebar (dom : SidebarDom) (store : StoredPrefs) :
    SidebarDom × StoredPrefs :=
  if dom.hiddenClass then
    ({ dom with hiddenClass := false, collapsedVisible := false },
      { store with visibility := some "visible" })
  else
    ({ dom with hiddenClass := true, collapsedVisible := true },
      { store with visibility := some "hidden" })

/-- What `getCurrentPosition` sees of the sidebar element, when present. -/
structure SidebarView where
  leftClass : Bool
  computedDisplay : String
deriving Repr, DecidableEq

/-- `localStorage.getItem('any-toc-position') || 'right'`: JavaScript `||`
treats both `null` and `""` as falsy. -/
def storedPositionOrRight (store : StoredPrefs) : String :=
  match store.position with
  | some s => if s == "" then "right" else s
  | none => "right"

/-- `getCurrentPosition()` (content.js lines 784-794): read the class of a
visible sidebar, otherwise fall back to the persisted position or
`'right'`. -/
def getCurrentPosition (sidebar : Option SidebarView) (store : StoredPrefs) :
    String :=
  match sidebar with
  | some sb =>
    if sb.computedDisplay != "none" then
      if sb.leftClass then "left" else "right"
    else storedPositionOrRight store
  | none => storedPositionOrRight store

/-! ### Host Coordinator relay (background.js lines 116-216) -/

/-- Wire-visible actions the coordinator performs against a tab. -/
inductive HostEv where
  | pingSent
  | injectAttempt
  | actionSent (action : String)
deriving Repr, DecidableEq

/-- A coordinator-level response to the popup. -/
structure HostResponse where
  success : Bool
  error : Option String
deriving Repr, DecidableEq

/-- How the target tab behaves during one relay: reply to the readiness ping
(`none` = channel error, `some true` = `{pong:true}`, `some false` = a reply
without `pong`), whether script injection succeeds, and the reply to the
forwarded action (`none` = channel error). -/
structure TabEnv where
  pingReply : Option Bool
  injectOk : Bool
  actionReply : Option HostResponse
deriving Repr, DecidableEq

/-- The coordinator-to-agent action-name mapping (background.js
lines 195-202): `toggleTOC` becomes `toggle`, `refreshTOC` becomes
`refresh`. -/
def mapAction (a : String) : String :=
  if a == "toggleTOC" then "toggle"
  else if a == "refreshTOC" then "refresh"
  else a

/-- `checkContentScriptStatus` (background.js lines 116-151): a tab recorded
as injected is ready with no traffic; otherwise ping it, and on a channel
error attempt one injection, succeeding or failing with it.  A reply without
`pong` is rejected without injecting.  Returns the emitted events and
readiness. -/
def checkContentScriptStatusRun (recorded : Bool) (env : TabEnv) :
    List HostEv × Bool :=
  if recorded then ([], true)
  else
    match env.pingReply with
    | some true => ([.pingSent], true)
    | some false => ([.pingSent], false)
    | none =>
      if env.injectOk then ([.pingSent, .injectAttempt], true)
      else ([.pingSent, .injectAttempt], false)

/-- `handleContentScriptAction` (background.js lines 182-216): ensure the
agent is ready (injecting at most once), report a structured failure when it
is not, otherwise forward the translated action once and relay the reply,
turning a channel error into a structured failure. -/
def handleContentScriptActionRun (recorded : Bool) (env : TabEnv)
    (action : String) : List HostEv × HostResponse :=
  let st := checkContentScriptStatusRun recorded env
  if !st.2 then
    (st.1, { success := false, error := some "Content script not ready" })
  else
    let contentAction := mapAction action
    match env.actionReply with
    | some r => (st.1 ++ [.actionSent contentAction], r)
    | none =>
      (st.1 ++ [.actionSent contentAction],
        { success := false, error := some "channel error" })

/-! ### Bounded auto-refresh after page load (background.js
`autoRefreshAfterPageLoad`, lines 341-373) -/

/-- What one `performRefresh` invocation observes of the sidebar. -/
structure AutoRefreshView where
  loadingPresent : Bool
  loadingDisplay : String
  noHeadingsDisplay : String
deriving Repr, DecidableEq

/-- The `performRefresh` loop (background.js lines 345-369): stop when 3
refreshes were performed, when the loading element is missing, or when the
loading element is hidden; otherwise force a refresh and schedule the next
invocation 5000 ms later.  Input: the view at each successive invocation.
Returns the number of `refreshTOC(true)` calls and the scheduled delays. -/
def performRefreshRun : Nat → List AutoRefreshView → Nat × List Nat
  | count, [] => (count, [])
  | count, v :: rest =>
    if count ≥ 3 || !v.loadingPresent then (count, [])
    else if v.loadingDisplay == "none" then (count, [])
    else
      let count' := count + 1
      if count' < 3 then
        let r := performRefreshRun count' rest
        (r.1, 5000 :: r.2)
      else (count', [])

/-- `autoRefreshAfterPageLoad()`: the loop started with a zero counter. -/
def autoRefreshAfterPageLoad (views : List AutoRefreshView) : Nat × List Nat :=
  performRefreshRun 0 views

/-- The stopping rule as the specification words it ("stopping early once
the 'no headings' placeholder is no longer shown"), for comparison with the
code's rule, which instead tests the loading placeholder. -/
def claimPerformRefreshRun : Nat → List AutoRefreshView → Nat
  | count, [] => count
  | count, v :: rest =>
    if count ≥ 3 || !v.loadingPresent then count
    else if v.noHeadingsDisplay == "none" then count
    else
      let count' := count + 1
      if count' < 3 then claimPerformRefreshRun count' rest else count'

/-! ### Concrete inputs used by witnesses -/

/-- A sidebar with no `left`/`hidden` classes, as `initTOC` first creates it. -/
def dom0 : SidebarDom :=
  ⟨false, false, false, false⟩

/-- An empty preference store (first visit). -/
def store0 : StoredPrefs :=
  ⟨none, none⟩

/-- A childList mutation adding an `h2` element. -/
def mutW : MutationRecord :=
  ⟨"childList", [.element (.mk ⟨"h2", "", [], "T", 0⟩ [])], []⟩

/-- A document whose `#main` container holds one real heading and one
whitespace-only heading. -/
def docW1 : Elem :=
  .mk ⟨"body", "", [], "", 0⟩
    [.mk ⟨"div", "main", [], "", 0⟩
      [.mk ⟨"h2", "", [], "  Hello ", 10⟩ [],
        .mk ⟨"h3", "", [], "   ", 20⟩ []]]

/-- A document whose `#main` container holds no headings while an `h1` sits
outside it. -/
def docW2a : Elem :=
  .mk ⟨"body", "", [], "", 0⟩
    [.mk ⟨"div", "main", [], "", 0⟩ [],
      .mk ⟨"h1", "", [], "Out", 7⟩ []]

/-- A document whose `#main` container holds a heading. -/
def docW2b : Elem :=
  .mk ⟨"body", "", [], "", 0⟩
    [.mk ⟨"div", "main", [], "", 0⟩ [.mk ⟨"h2", "", [], "In", 3⟩ []]]

/-- A document whose `#content` container holds a heading with a
pre-existing id and one without an id. -/
def docW3 : Elem :=
  .mk ⟨"body", "", [], "", 0⟩
    [.mk ⟨"div", "content", [], "", 0⟩
      [.mk ⟨"h1", "keep", [], "World", 30⟩ [],
        .mk ⟨"h2", "", [], " Hi ", 40⟩ []]]

/-! ## Theorems -/

/-! ### Tree lemmas for the extractor -/

/-- `maskList` is `mask` mapped over the list. -/
theorem maskList_eq_map (cs : List Elem) : maskList cs = cs.map mask := by
  induction cs with
  | nil => rfl
  | cons c cs ih => simp [maskList, ih]

/-- `mask` erases exactly the root's id. -/
theorem mask_data (e : Elem) : (mask e).data = { e.data with id := "" } := by
  cases e
  rfl

/-- `mask` maps over the children. -/
theorem mask_children (e : Elem) : (mask e).children = maskList e.children := by
  cases e
  rfl

/-- Lookup commutes with `mask`. -/
theorem getAt?_mask (q : Path) : ∀ e : Elem,
    getAt? (mask e) q = (getAt? e q).map mask := by
  induction q with
  | nil => intro e; simp [getAt?]
  | cons i p ih =>
    intro e
    simp only [getAt?, mask_children, maskList_eq_map, List.getElem?_map]
    cases h : e.children[i]? with
    | none => simp
    | some c => simp [ih c]

/-- `setIdAtList` leaves the masks of the sibling trees unchanged, given that
`setIdAt` does on each tree. -/
theorem maskList_setIdAtList (p : Path) (s : String)
    (hmask : ∀ e, mask (setIdAt e p s) = mask e) :
    ∀ (cs : List Elem) (i : Nat),
      maskList (setIdAtList cs i p s) = maskList cs := by
  intro cs
  induction cs with
  | nil => intro i; rfl
  | cons c cs ih =>
    intro i
    cases i with
    | zero => simp [setIdAtList, maskList, hmask c]
    | succ n => simp [setIdAtList, maskList, ih n]

/-- Assigning an id does not change the mask of the tree. -/
theorem mask_setIdAt (p : Path) (s : String) :
    ∀ e, mask (setIdAt e p s) = mask e := by
  induction p with
  | nil =>
    intro e
    cases e
    simp [setIdAt, mask]
  | cons i p ih =>
    intro e
    cases e with
    | mk d cs => simp [setIdAt, mask, maskList_setIdAtList p s ih cs i]

mutual

/-- `mask` preserves the path structure of a tree. -/
theorem subPaths_mask : ∀ e : Elem, subPaths (mask e) = subPaths e
  | .mk d cs => by
    simp only [mask, subPaths]
    rw [subPathsAux_maskList 0 cs]

/-- `maskList` preserves the path structure of sibling trees. -/
theorem subPathsAux_maskList : ∀ (k : Nat) (cs : List Elem),
    subPathsAux k (maskList cs) = subPathsAux k cs
  | _, [] => rfl
  | k, c :: cs => by
    simp only [maskList, subPathsAux]
    rw [subPaths_mask c, subPathsAux_maskList (k + 1) cs]

end

/-- Lookup through one child. -/
theorem getAt?_cons (d : ElemData) (cs : List Elem) (j : Nat) (q : Path) :
    getAt? (.mk d cs) (j :: q) = (cs[j]?).bind (fun c => getAt? c q) := by
  have hch : (Elem.mk d cs).children = cs := rfl
  simp only [getAt?, hch]
  cases cs[j]? <;> rfl

/-- Lookup along a concatenation of paths. -/
theorem getAt?_append (p : Path) : ∀ (e : Elem) (q : Path),
    getAt? e (p ++ q) = (getAt? e p).bind (fun c => getAt? c q) := by
  induction p with
  | nil => intro e q; simp [getAt?]
  | cons i p ih =>
    intro e q
    cases e with
    | mk d cs =>
      rw [List.cons_append, getAt?_cons, getAt?_cons]
      cases cs[i]? with
      | none => simp
      | some c => simp [ih c q]

/-- Elements of `setIdAtList` by index. -/
theorem setIdAtList_getElem? (p : Path) (s : String) :
    ∀ (cs : List Elem) (i : Nat) (j : Nat),
      (setIdAtList cs i p s)[j]? =
        if j = i then (cs[j]?).map (fun c => setIdAt c p s) else cs[j]? := by
  intro cs
  induction cs with
  | nil => intro i j; simp [setIdAtList]
  | cons c cs ih =>
    intro i j
    cases i with
    | zero =>
      cases j with
      | zero => simp [setIdAtList]
      | succ m => simp [setIdAtList]
    | succ n =>
      cases j with
      | zero => simp [setIdAtList]
      | succ m => simp [setIdAtList, ih n m]

/-- `idAt` through one child. -/
theorem idAt_cons (d : ElemData) (cs : List Elem) (j : Nat) (q : Path) :
    idAt (.mk d cs) (j :: q) = ((cs[j]?).map (fun c => idAt c q)).getD "" := by
  simp only [idAt, getAt?_cons]
  cases cs[j]? <;> rfl

/-- The effect of `setIdAt` on every id of the tree: the id at the assigned
(valid) path becomes `s`; every other id is unchanged. -/
theorem idAt_setIdAt (p : Path) (s : String) :
    ∀ (e : Elem) (q : Path),
      idAt (setIdAt e p s) q =
        if q = p ∧ (getAt? e p).isSome = true then s else idAt e q := by
  induction p with
  | nil =>
    intro e q
    cases e with
    | mk d cs =>
      cases q with
      | nil => simp [setIdAt, idAt, getAt?, Elem.data]
      | cons j q' => simp [setIdAt, idAt_cons]
  | cons i p ih =>
    intro e q
    cases e with
    | mk d cs =>
      cases q with
      | nil => simp [setIdAt, idAt, getAt?, Elem.data]
      | cons j q' =>
        rw [setIdAt, idAt_cons, idAt_cons, setIdAtList_getElem? p s cs i j]
        by_cases hj : j = i
        · subst hj
          rw [if_pos rfl]
          cases hc : cs[j]? with
          | none => simp [getAt?_cons, hc]
          | some c =>
            simp only [Option.map_some', Option.getD_some]
            rw [ih c q']
            simp [getAt?_cons, hc, idAt_cons, List.cons.injEq]
        · rw [if_neg hj]
          simp [getAt?_cons, idAt_cons, List.cons.injEq, hj]

/-- Lookups in trees with equal masks agree up to mask. -/
theorem getAt?_map_mask_congr (a b : Elem) (h : mask a = mask b) (q : Path) :
    (getAt? a q).map mask = (getAt? b q).map mask := by
  rw [← getAt?_mask, ← getAt?_mask, h]

/-- Trees with equal masks carry the same id-stripped data at every path. -/
theorem data_noid_congr (a b : Elem) (h : mask a = mask b) (q : Path) :
    (getAt? a q).map (fun e => { e.data with id := "" }) =
      (getAt? b q).map (fun e => { e.data with id := "" }) := by
  have h2 := getAt?_map_mask_congr a b h q
  cases ha : getAt? a q with
  | none =>
    cases hb : getAt? b q with
    | none => rfl
    | some y => rw [ha, hb] at h2; simp at h2
  | some x =>
    cases hb : getAt? b q with
    | none => rw [ha, hb] at h2; simp at h2
    | some y =>
      rw [ha, hb] at h2
      simp only [Option.map_some', Option.some.injEq] at h2 ⊢
      rw [← mask_data x, ← mask_data y, h2]

/-- Trees with equal masks have the same valid paths. -/
theorem isSome_congr (a b : Elem) (h : mask a = mask b) (q : Path) :
    (getAt? a q).isSome = (getAt? b q).isSome := by
  have h2 := getAt?_map_mask_congr a b h q
  cases ha : getAt? a q <;> cases hb : getAt? b q <;> rw [ha, hb] at h2 <;>
    simp_all

/-- Trees with equal masks have the same tag at every path. -/
theorem tagAt_congr (a b : Elem) (h : mask a = mask b) (q : Path) :
    tagAt a q = tagAt b q := by
  have h2 := data_noid_congr a b h q
  unfold tagAt
  cases ha : getAt? a q <;> cases hb : getAt? b q <;> rw [ha, hb] at h2 <;>
    simp_all [ElemData.mk.injEq]

/-- Trees with equal masks have the same text at every path. -/
theorem textAt_congr (a b : Elem) (h : mask a = mask b) (q : Path) :
    textAt a q = textAt b q := by
  have h2 := data_noid_congr a b h q
  unfold textAt
  cases ha : getAt? a q <;> cases hb : getAt? b q <;> rw [ha, hb] at h2 <;>
    simp_all [ElemData.mk.injEq]

/-- Trees with equal masks have the same classes at every path. -/
theorem classesAt_congr (a b : Elem) (h : mask a = mask b) (q : Path) :
    classesAt a q = classesAt b q := by
  have h2 := data_noid_congr a b h q
  unfold classesAt
  cases ha : getAt? a q <;> cases hb : getAt? b q <;> rw [ha, hb] at h2 <;>
    simp_all [ElemData.mk.injEq]

/-- Trees with equal masks have the same vertical offsets at every path. -/
theorem offsetAt_congr (a b : Elem) (h : mask a = mask b) (q : Path) :
    offsetAt a q = offsetAt b q := by
  have h2 := data_noid_congr a b h q
  unfold offsetAt
  cases ha : getAt? a q <;> cases hb : getAt? b q <;> rw [ha, hb] at h2 <;>
    simp_all [ElemData.mk.injEq]

/-- `find?` only depends on the predicate's values on the list. -/
theorem findCongr {α : Type} (f g : α → Bool) :
    ∀ l : List α, (∀ a ∈ l, f a = g a) → l.find? f = l.find? g := by
  intro l
  induction l with
  | nil => intro _; rfl
  | cons a l ih =>
    intro h
    have ha := h a (by simp)
    cases hga : g a with
    | true =>
      rw [List.find?_cons_of_pos _ (ha.trans hga),
        List.find?_cons_of_pos _ hga]
    | false =>
      rw [List.find?_cons_of_neg _ (by simp [ha, hga]),
        List.find?_cons_of_neg _ (by simp [hga]),
        ih (fun b hb => h b (by simp [hb]))]

/-- `filter` only depends on the predicate's values on the list. -/
theorem filterCongr {α : Type} (f g : α → Bool) :
    ∀ l : List α, (∀ a ∈ l, f a = g a) → l.filter f = l.filter g := by
  intro l
  induction l with
  | nil => intro _; rfl
  | cons a l ih =>
    intro h
    rw [List.filter_cons, List.filter_cons, h a (by simp),
      ih (fun b hb => h b (by simp [hb]))]

mutual

/-- Every pre-order path of a tree addresses a node. -/
theorem subPaths_valid : ∀ (e : Elem) (p : Path),
    p ∈ subPaths e → (getAt? e p).isSome = true
  | .mk d cs, p, hp => by
    rw [subPaths] at hp
    rcases List.mem_cons.mp hp with h | h
    · subst h
      simp [getAt?]
    · obtain ⟨i, q, c, hp', hci, hv⟩ := subPathsAux_valid cs 0 p h
      subst hp'
      rw [Nat.zero_add, getAt?_cons, hci]
      exact hv

/-- Every path produced by `subPathsAux k` points through a sibling at some
index offset and addresses a node of that sibling. -/
theorem subPathsAux_valid : ∀ (cs : List Elem) (k : Nat) (p : Path),
    p ∈ subPathsAux k cs →
    ∃ i q c, p = (k + i) :: q ∧ cs[i]? = some c ∧ (getAt? c q).isSome = true
  | [], k, p, hp => by simp [subPathsAux] at hp
  | c :: cs, k, p, hp => by
    rw [subPathsAux] at hp
    rcases List.mem_append.mp hp with h | h
    · obtain ⟨q, hq, hpq⟩ := List.mem_map.mp h
      refine ⟨0, q, c, ?_, by simp, subPaths_valid c q hq⟩
      rw [← hpq, Nat.add_zero]
    · obtain ⟨i, q, c', hp', hc', hv⟩ := subPathsAux_valid cs (k + 1) p h
      refine ⟨i + 1, q, c', ?_, by simpa using hc', hv⟩
      rw [hp']
      have harith : k + 1 + i = k + (i + 1) := by omega
      rw [harith]

end

/-- Lookup below a valid path is lookup inside the subtree. -/
theorem getAt?_append_some (doc c : Elem) (cp q : Path)
    (hc : getAt? doc cp = some c) :
    getAt? doc (cp ++ q) = getAt? c q := by
  rw [getAt?_append, hc]
  rfl

/-- Lookup translated through equal masks, keeping the surviving fields. -/
theorem getAt?_some_congr (a b : Elem) (h : mask a = mask b) (p : Path)
    (e : Elem) (he : getAt? a p = some e) :
    ∃ f, getAt? b p = some f ∧
      ({ f.data with id := "" } : ElemData) = { e.data with id := "" } := by
  have h2 := data_noid_congr a b h p
  rw [he] at h2
  cases hb : getAt? b p with
  | none => rw [hb] at h2; simp at h2
  | some f =>
    rw [hb] at h2
    simp only [Option.map_some', Option.some.injEq] at h2
    exact ⟨f, rfl, h2.symm⟩

/-- A generated id has at least 12 characters. -/
theorem genId_length (j : Nat) : 12 ≤ (genId j).length := by
  unfold genId
  rw [String.length_append]
  have : ("toc-heading-" : String).length = 12 := rfl
  omega

/-- A generated id is never empty. -/
theorem genId_ne_empty (j : Nat) : genId j ≠ "" := by
  intro h
  have h1 := genId_length j
  rw [h] at h1
  simp at h1

/-- A generated id never equals a string of fewer than twelve characters
(such as the container ids the extractor looks up). -/
theorem genId_ne_short (j : Nat) (s : String) (hs : s.length < 12) :
    genId j ≠ s := by
  intro h
  have h1 := genId_length j
  rw [h] at h1
  omega

/-- The extraction loop changes only ids, never the mask of the document. -/
theorem extractFrom_mask (ps : List Path) :
    ∀ (doc : Elem) (i : Nat), mask (extractFrom doc i ps).2 = mask doc := by
  induction ps with
  | nil => intro doc i; rfl
  | cons p ps ih =>
    intro doc i
    simp only [extractFrom]
    cases hg : getAt? doc p with
    | none => exact ih doc (i + 1)
    | some e =>
      dsimp only
      by_cases ht : (jsTrim e.data.text == "") = true
      · rw [if_pos ht]
        exact ih doc (i + 1)
      · rw [if_neg ht]
        by_cases hid : (e.data.id == "") = true
        · simp only [if_pos hid]
          rw [ih (setIdAt doc p (genId i)) (i + 1), mask_setIdAt]
        · simp only [if_neg hid]
          exact ih doc (i + 1)

/-- Every id after the extraction loop is either the original id, or — only
when the original id was empty and the path is one of the processed heading
paths — a freshly generated `toc-heading-` id. -/
theorem extractFrom_idAt (ps : List Path) :
    ∀ (doc : Elem) (i : Nat) (q : Path),
      idAt (extractFrom doc i ps).2 q = idAt doc q
      ∨ (idAt doc q = "" ∧ q ∈ ps
          ∧ ∃ j, idAt (extractFrom doc i ps).2 q = genId j) := by
  induction ps with
  | nil => intro doc i q; left; rfl
  | cons p ps ih =>
    intro doc i q
    simp only [extractFrom]
    cases hg : getAt? doc p with
    | none =>
      rcases ih doc (i + 1) q with h | ⟨h1, h2, h3⟩
      · left; exact h
      · right; exact ⟨h1, by simp [h2], h3⟩
    | some e =>
      dsimp only
      by_cases ht : (jsTrim e.data.text == "") = true
      · rw [if_pos ht]
        rcases ih doc (i + 1) q with h | ⟨h1, h2, h3⟩
        · left; exact h
        · right; exact ⟨h1, by simp [h2], h3⟩
      · rw [if_neg ht]
        by_cases hid : (e.data.id == "") = true
        · simp only [if_pos hid]
          have hset := idAt_setIdAt p (genId i) doc q
          by_cases hqp : q = p
          · subst hqp
            have hvalid : (getAt? doc q).isSome = true := by rw [hg]; rfl
            rw [if_pos ⟨rfl, hvalid⟩] at hset
            have hq0 : idAt doc q = "" := by
              unfold idAt
              rw [hg]
              simpa using hid
            rcases ih (setIdAt doc q (genId i)) (i + 1) q with h | ⟨h1, _, h3⟩
            · right
              refine ⟨hq0, by simp, i, ?_⟩
              rw [h, hset]
            · rw [hset] at h1
              exact absurd h1 (genId_ne_empty i)
          · rw [if_neg (fun hc => hqp hc.1)] at hset
            rcases ih (setIdAt doc p (genId i)) (i + 1) q with h | ⟨h1, h2, h3⟩
            · left
              rw [h, hset]
            · right
              rw [hset] at h1
              exact ⟨h1, by simp [h2], h3⟩
        · simp only [if_neg hid]
          rcases ih doc (i + 1) q with h | ⟨h1, h2, h3⟩
          · left; exact h
          · right; exact ⟨h1, by simp [h2], h3⟩

/-- The extraction loop never changes a nonempty id. -/
theorem extractFrom_id_preserve (ps : List Path) (doc : Elem) (i : Nat)
    (q : Path) (h : idAt doc q ≠ "") :
    idAt (extractFrom doc i ps).2 q = idAt doc q := by
  rcases extractFrom_idAt ps doc i q with h1 | ⟨h1, _, _⟩
  · exact h1
  · exact absurd h1 h

/-- After the extraction loop, every processed heading path whose trimmed
text is nonempty carries a nonempty id. -/
theorem extractFrom_assigned (ps : List Path) :
    ∀ (doc : Elem) (i : Nat) (p : Path), p ∈ ps →
      (getAt? doc p).isSome = true →
      jsTrim (textAt doc p) ≠ "" →
      idAt (extractFrom doc i ps).2 p ≠ "" := by
  induction ps with
  | nil => intro doc i p hp; simp at hp
  | cons p' ps ih =>
    intro doc i p hp hv htext
    simp only [extractFrom]
    rcases List.mem_cons.mp hp with hpp | hpp
    · subst hpp
      obtain ⟨e, hg⟩ := Option.isSome_iff_exists.mp hv
      rw [hg]
      dsimp only
      have htext' : ¬(jsTrim e.data.text == "") = true := by
        have : textAt doc p = e.data.text := by unfold textAt; rw [hg]; rfl
        rw [this] at htext
        simpa using htext
      rw [if_neg htext']
      by_cases hid : (e.data.id == "") = true
      · simp only [if_pos hid]
        have hvalid : (getAt? doc p).isSome = true := hv
        have hnew : idAt (setIdAt doc p (genId i)) p = genId i := by
          rw [idAt_setIdAt]
          exact if_pos ⟨rfl, hvalid⟩
        rw [extractFrom_id_preserve ps (setIdAt doc p (genId i)) (i + 1) p
          (by rw [hnew]; exact genId_ne_empty i)]
        rw [hnew]
        exact genId_ne_empty i
      · simp only [if_neg hid]
        have hne : idAt doc p ≠ "" := by
          unfold idAt
          rw [hg]
          simpa using hid
        rw [extractFrom_id_preserve ps doc (i + 1) p hne]
        exact hne
    · cases hg : getAt? doc p' with
      | none => exact ih doc (i + 1) p hpp hv htext
      | some e =>
        dsimp only
        by_cases ht : (jsTrim e.data.text == "") = true
        · rw [if_pos ht]
          exact ih doc (i + 1) p hpp hv htext
        · rw [if_neg ht]
          by_cases hid : (e.data.id == "") = true
          · simp only [if_pos hid]
            have hmask := mask_setIdAt p' (genId i) doc
            exact ih (setIdAt doc p' (genId i)) (i + 1) p hpp
              (by rw [isSome_congr (setIdAt doc p' (genId i)) doc hmask p]; exact hv)
              (by rw [textAt_congr (setIdAt doc p' (genId i)) doc hmask p]; exact htext)
          · simp only [if_neg hid]
            exact ih doc (i + 1) p hpp hv htext

/-- Two data records equal after erasing ids agree on all other fields. -/
theorem stripId_inj (d1 d2 : ElemData)
    (h : ({ d1 with id := "" } : ElemData) = { d2 with id := "" }) :
    d1.tag = d2.tag ∧ d1.classes = d2.classes ∧ d1.text = d2.text
      ∧ d1.offsetTop = d2.offsetTop := by
  cases d1
  cases d2
  simp_all [ElemData.mk.injEq]

/-- `extractHeadings` is the extraction loop run over `headingQueryPaths`. -/
theorem extractHeadings_eq (doc : Elem) :
    extractHeadings doc = extractFrom doc 0 (headingQueryPaths doc) := rfl

/-- The text/level projection of the extraction loop's records: one record
per processed path with nonempty trimmed text, in order, with the trimmed
text and the tag's level, read off any tree with the same mask. -/
theorem extractFrom_textLevel (ps : List Path) :
    ∀ (doc doc₀ : Elem) (i : Nat), mask doc = mask doc₀ →
      (extractFrom doc i ps).1.map (fun r => (r.text, r.level)) =
        ps.filterMap (readTextLevel doc₀) := by
  induction ps with
  | nil => intro doc doc₀ i h; rfl
  | cons p ps ih =>
    intro doc doc₀ i hmask
    simp only [extractFrom, List.filterMap_cons]
    cases hg : getAt? doc p with
    | none =>
      have h0 : (getAt? doc₀ p).isSome = false := by
        rw [← isSome_congr doc doc₀ hmask p, hg]
        rfl
      have h0' : getAt? doc₀ p = none := by
        cases hd : getAt? doc₀ p
        · rfl
        · rw [hd] at h0; simp at h0
      rw [show readTextLevel doc₀ p = none by unfold readTextLevel; rw [h0']]
      exact ih doc doc₀ (i + 1) hmask
    | some e =>
      dsimp only
      obtain ⟨f, hf, hfe⟩ := getAt?_some_congr doc doc₀ hmask p e hg
      obtain ⟨htag, -, htext, -⟩ := stripId_inj f.data e.data hfe
      by_cases ht : (jsTrim e.data.text == "") = true
      · rw [if_pos ht]
        rw [show readTextLevel doc₀ p = none by
          unfold readTextLevel
          rw [hf]
          dsimp only
          rw [htext, if_pos ht]]
        exact ih doc doc₀ (i + 1) hmask
      · rw [if_neg ht]
        rw [show readTextLevel doc₀ p =
            some (jsTrim e.data.text, headingLevel e.data.tag) by
          unfold readTextLevel
          rw [hf]
          dsimp only
          rw [htext, htag, if_neg ht]]
        simp only [List.map_cons]
        by_cases hid : (e.data.id == "") = true
        · simp only [if_pos hid]
          rw [ih (setIdAt doc p (genId i)) doc₀ (i + 1)
            ((mask_setIdAt p (genId i) doc).trans hmask)]
        · simp only [if_neg hid]
          rw [ih doc doc₀ (i + 1) hmask]

/-- When every processed heading that would be emitted already carries a
nonempty id, the extraction loop is a pure read: it emits the records read
directly off the document and leaves the document unchanged. -/
theorem extractFrom_pure (ps : List Path) :
    ∀ (doc : Elem) (i : Nat),
      (∀ p ∈ ps, ∀ e, getAt? doc p = some e →
        jsTrim e.data.text ≠ "" → e.data.id ≠ "") →
      extractFrom doc i ps = (ps.filterMap (readRecord doc), doc) := by
  induction ps with
  | nil => intro doc i _; rfl
  | cons p ps ih =>
    intro doc i hids
    simp only [extractFrom, List.filterMap_cons]
    cases hg : getAt? doc p with
    | none =>
      rw [show readRecord doc p = none by unfold readRecord; rw [hg]]
      exact ih doc (i + 1) (fun q hq => hids q (by simp [hq]))
    | some e =>
      dsimp only
      by_cases ht : (jsTrim e.data.text == "") = true
      · rw [if_pos ht]
        rw [show readRecord doc p = none by
          unfold readRecord
          rw [hg]
          dsimp only
          rw [if_pos ht]]
        exact ih doc (i + 1) (fun q hq => hids q (by simp [hq]))
      · rw [if_neg ht]
        have hidne : e.data.id ≠ "" :=
          hids p (by simp) e hg (by simpa using ht)
        have hid : ¬(e.data.id == "") = true := by simpa using hidne
        simp only [if_neg hid]
        rw [show readRecord doc p =
            some ⟨jsTrim e.data.text, headingLevel e.data.tag,
              e.data.id, e.data.offsetTop⟩ by
          unfold readRecord
          rw [hg]
          dsimp only
          rw [if_neg ht]]
        rw [ih doc (i + 1) (fun q hq => hids q (by simp [hq]))]

/-- The records the extraction loop emits are exactly the records read off
the final (id-annotated) document at the processed paths. -/
theorem extractFrom_records (ps : List Path) :
    ∀ (doc : Elem) (i : Nat),
      (extractFrom doc i ps).1 =
        ps.filterMap (readRecord (extractFrom doc i ps).2) := by
  induction ps with
  | nil => intro doc i; rfl
  | cons p ps ih =>
    intro doc i
    simp only [extractFrom, List.filterMap_cons]
    cases hg : getAt? doc p with
    | none =>
      have hmask := extractFrom_mask ps doc (i + 1)
      have h0 : (getAt? (extractFrom doc (i + 1) ps).2 p).isSome = false := by
        rw [isSome_congr (extractFrom doc (i + 1) ps).2 doc hmask p, hg]
        rfl
      have h0' : getAt? (extractFrom doc (i + 1) ps).2 p = none := by
        cases hd : getAt? (extractFrom doc (i + 1) ps).2 p
        · rfl
        · rw [hd] at h0; simp at h0
      rw [show readRecord (extractFrom doc (i + 1) ps).2 p = none by
        unfold readRecord; rw [h0']]
      exact ih doc (i + 1)
    | some e =>
      dsimp only
      by_cases ht : (jsTrim e.data.text == "") = true
      · rw [if_pos ht]
        have hmask := extractFrom_mask ps doc (i + 1)
        obtain ⟨f, hf, hfe⟩ :=
          getAt?_some_congr doc (extractFrom doc (i + 1) ps).2 hmask.symm p e hg
        obtain ⟨-, -, htext, -⟩ := stripId_inj f.data e.data hfe
        rw [show readRecord (extractFrom doc (i + 1) ps).2 p = none by
          unfold readRecord
          rw [hf]
          dsimp only
          rw [htext, if_pos ht]]
        exact ih doc (i + 1)
      · rw [if_neg ht]
        by_cases hid : (e.data.id == "") = true
        · simp only [if_pos hid]
          have hvalid : (getAt? doc p).isSome = true := by rw [hg]; rfl
          have hnew : idAt (setIdAt doc p (genId i)) p = genId i := by
            rw [idAt_setIdAt]
            exact if_pos ⟨rfl, hvalid⟩
          have hkeep :=
            extractFrom_id_preserve ps (setIdAt doc p (genId i)) (i + 1) p
              (by rw [hnew]; exact genId_ne_empty i)
          have hmask := extractFrom_mask ps (setIdAt doc p (genId i)) (i + 1)
          have hmask2 : mask doc =
              mask (extractFrom (setIdAt doc p (genId i)) (i + 1) ps).2 :=
            ((mask_setIdAt p (genId i) doc).symm).trans hmask.symm
          obtain ⟨f, hf, hfe⟩ := getAt?_some_congr doc _ hmask2 p e hg
          obtain ⟨htag, -, htext, hoff⟩ := stripId_inj f.data e.data hfe
          have hfid : f.data.id = genId i := by
            have : idAt (extractFrom (setIdAt doc p (genId i)) (i + 1) ps).2 p =
                f.data.id := by
              unfold idAt; rw [hf]; rfl
            rw [← this, hkeep, hnew]
          rw [show readRecord
              (extractFrom (setIdAt doc p (genId i)) (i + 1) ps).2 p =
              some ⟨jsTrim e.data.text, headingLevel e.data.tag,
                genId i, e.data.offsetTop⟩ by
            unfold readRecord
            rw [hf]
            dsimp only
            rw [htext, htag, hoff, hfid, if_neg ht]]
          rw [ih (setIdAt doc p (genId i)) (i + 1)]
        · simp only [if_neg hid]
          have hidne : idAt doc p ≠ "" := by
            unfold idAt
            rw [hg]
            simpa using hid
          have hkeep := extractFrom_id_preserve ps doc (i + 1) p hidne
          have hmask := extractFrom_mask ps doc (i + 1)
          obtain ⟨f, hf, hfe⟩ :=
            getAt?_some_congr doc _ hmask.symm p e hg
          obtain ⟨htag, -, htext, hoff⟩ := stripId_inj f.data e.data hfe
          have hfid : f.data.id = e.data.id := by
            have h1 : idAt (extractFrom doc (i + 1) ps).2 p = f.data.id := by
              unfold idAt; rw [hf]; rfl
            have h2 : idAt doc p = e.data.id := by
              unfold idAt; rw [hg]; rfl
            rw [← h1, hkeep, h2]
          rw [show readRecord (extractFrom doc (i + 1) ps).2 p =
              some ⟨jsTrim e.data.text, headingLevel e.data.tag,
                e.data.id, e.data.offsetTop⟩ by
            unfold readRecord
            rw [hf]
            dsimp only
            rw [htext, htag, hoff, hfid, if_neg ht]]
          rw [ih doc (i + 1)]

/-- Equal masks give equal path structure. -/
theorem subPaths_congr (a b : Elem) (h : mask a = mask b) :
    subPaths a = subPaths b := by
  rw [← subPaths_mask a, h, subPaths_mask b]

/-- The extraction loop does not change `getElementById` results for ids
that are neither empty nor of the generated form. -/
theorem getElementById?_extractFrom (ps : List Path) (doc : Elem) (i : Nat)
    (s : String) (hs : s ≠ "") (hgen : ∀ j, genId j ≠ s) :
    getElementById? (extractFrom doc i ps).2 s = getElementById? doc s := by
  unfold getElementById?
  rw [subPaths_congr _ _ (extractFrom_mask ps doc i)]
  apply findCongr
  intro p _
  rcases extractFrom_idAt ps doc i p with h1 | ⟨h1, _, j, h3⟩
  · rw [h1]
  · rw [h1, h3]
    have e1 : (genId j == s) = false := by simpa using hgen j
    have e2 : (("" : String) == s) = false := by simpa using Ne.symm hs
    rw [e1, e2]

/-- Tag queries agree on trees with equal masks. -/
theorem queryTag?_congr (a b : Elem) (h : mask a = mask b) (t : String) :
    queryTag? a t = queryTag? b t := by
  unfold queryTag?
  rw [subPaths_congr a b h]
  exact findCongr _ _ _ (fun p _ => by rw [tagAt_congr a b h p])

/-- Class queries agree on trees with equal masks. -/
theorem queryClass?_congr (a b : Elem) (h : mask a = mask b) (c : String) :
    queryClass? a c = queryClass? b c := by
  unfold queryClass?
  rw [subPaths_congr a b h]
  exact findCongr _ _ _ (fun p _ => by rw [classesAt_congr a b h p])

/-- The extraction loop does not change which container is designated. -/
theorem selectContainer_extractFrom (ps : List Path) (doc : Elem) (i : Nat) :
    selectContainer (extractFrom doc i ps).2 = selectContainer doc := by
  have hm := extractFrom_mask ps doc i
  unfold selectContainer
  rw [getElementById?_extractFrom ps doc i "main" (by decide)
      (fun j => genId_ne_short j "main" (by decide)),
    getElementById?_extractFrom ps doc i "content" (by decide)
      (fun j => genId_ne_short j "content" (by decide)),
    getElementById?_extractFrom ps doc i "article" (by decide)
      (fun j => genId_ne_short j "article" (by decide)),
    queryTag?_congr _ _ hm "article", queryTag?_congr _ _ hm "main",
    queryClass?_congr _ _ hm "content", queryClass?_congr _ _ hm "article"]

/-- The container's heading query agrees on trees with equal masks. -/
theorem headingPathsUnder_congr (a b : Elem) (h : mask a = mask b)
    (cp : Path) : headingPathsUnder a cp = headingPathsUnder b cp := by
  unfold headingPathsUnder
  cases ha : getAt? a cp with
  | none =>
    have h0 : (getAt? b cp).isSome = false := by
      rw [← isSome_congr a b h cp, ha]
      rfl
    have h0' : getAt? b cp = none := by
      cases hd : getAt? b cp
      · rfl
      · rw [hd] at h0; simp at h0
    rw [h0']
  | some c =>
    obtain ⟨c', hc', hce⟩ := getAt?_some_congr a b h cp c ha
    rw [hc']
    dsimp only
    have hmc : mask c = mask c' := by
      have h2 := getAt?_map_mask_congr a b h cp
      rw [ha, hc'] at h2
      simpa using h2
    congr 1
    rw [subPaths_congr c c' hmc]
    apply filterCongr
    intro q _
    rw [tagAt_congr c c' hmc q]

/-- The whole-document heading query agrees on trees with equal masks. -/
theorem headingPathsAll_congr (a b : Elem) (h : mask a = mask b) :
    headingPathsAll a = headingPathsAll b := by
  unfold headingPathsAll
  rw [subPaths_congr a b h]
  exact filterCongr _ _ _ (fun p _ => by rw [tagAt_congr a b h p])

/-- A whole-document heading path is valid and heading-tagged. -/
theorem mem_headingPathsAll (doc : Elem) (p : Path)
    (h : p ∈ headingPathsAll doc) :
    (getAt? doc p).isSome = true ∧ isHeadingTag (tagAt doc p) = true := by
  unfold headingPathsAll at h
  have h2 := List.mem_filter.mp h
  exact ⟨subPaths_valid doc p h2.1, h2.2⟩

/-- A container heading path is valid and heading-tagged. -/
theorem mem_headingPathsUnder (doc : Elem) (cp p : Path)
    (h : p ∈ headingPathsUnder doc cp) :
    (getAt? doc p).isSome = true ∧ isHeadingTag (tagAt doc p) = true := by
  unfold headingPathsUnder at h
  cases hc : getAt? doc cp with
  | none => rw [hc] at h; simp at h
  | some c =>
    rw [hc] at h
    dsimp only at h
    obtain ⟨q, hq, hpq⟩ := List.mem_map.mp h
    subst hpq
    have h2 := List.mem_filter.mp hq
    have hval := subPaths_valid c q h2.1
    have hga := getAt?_append_some doc c cp q hc
    constructor
    · rw [hga]
      exact hval
    · have htq : tagAt doc (cp ++ q) = tagAt c q := by
        unfold tagAt
        rw [hga]
      rw [htq]
      have := h2.2
      simp only [Bool.and_eq_true] at this
      exact this.2

/-- A processed heading path is valid and heading-tagged. -/
theorem mem_headingQueryPaths (doc : Elem) (p : Path)
    (h : p ∈ headingQueryPaths doc) :
    (getAt? doc p).isSome = true ∧ isHeadingTag (tagAt doc p) = true := by
  unfold headingQueryPaths at h
  split at h
  · exact mem_headingPathsAll doc p h
  · exact mem_headingPathsUnder doc (selectContainer doc) p h

/-- C1: for every document with at least one heading of non-whitespace text
inside the designated container, `extractHeadings` returns one record per
such heading, in document order, with each record's level equal to the
heading's tag level and its text equal to the heading's trimmed, non-empty
text; a whitespace-only heading never yields a record. -/
theorem extractHeadings_container_records (doc : Elem)
    (h : ∃ p ∈ containerHeadingPaths doc,
      (readTextLevel doc p).isSome = true) :
    (extractHeadings doc).1.map (fun r => (r.text, r.level)) =
      (containerHeadingPaths doc).filterMap (readTextLevel doc)
    ∧ ∀ r ∈ (extractHeadings doc).1, r.text ≠ "" := by
  obtain ⟨p, hp, _⟩ := h
  have hne : ¬(containerHeadingPaths doc).isEmpty = true := by
    cases hcp : containerHeadingPaths doc
    · rw [hcp] at hp
      simp at hp
    · simp
  have hq : headingQueryPaths doc = containerHeadingPaths doc := by
    unfold headingQueryPaths
    rw [if_neg hne]
  have hmain : (extractHeadings doc).1.map (fun r => (r.text, r.level)) =
      (containerHeadingPaths doc).filterMap (readTextLevel doc) := by
    rw [extractHeadings_eq, hq]
    exact extractFrom_textLevel (containerHeadingPaths doc) doc doc 0 rfl
  refine ⟨hmain, ?_⟩
  intro r hr
  have hmem : (r.text, r.level) ∈
      (containerHeadingPaths doc).filterMap (readTextLevel doc) := by
    rw [← hmain]
    exact List.mem_map.mpr ⟨r, hr, rfl⟩
  obtain ⟨q, _, hq3⟩ := List.mem_filterMap.mp hmem
  unfold readTextLevel at hq3
  cases hg : getAt? doc q with
  | none =>
    rw [hg] at hq3
    simp at hq3
  | some e =>
    rw [hg] at hq3
    dsimp only at hq3
    by_cases ht : (jsTrim e.data.text == "") = true
    · rw [if_pos ht] at hq3
      simp at hq3
    · rw [if_neg ht] at hq3
      simp only [Option.some.injEq, Prod.mk.injEq] at hq3
      rw [← hq3.1]
      simpa using ht

/-- Witness for C1 at a concrete document. -/
theorem extractHeadings_container_records_witness :
    (∃ p ∈ containerHeadingPaths docW1, (readTextLevel docW1 p).isSome = true)
    ∧ ((extractHeadings docW1).1.map (fun r => (r.text, r.level)) =
        (containerHeadingPaths docW1).filterMap (readTextLevel docW1)
      ∧ ∀ r ∈ (extractHeadings docW1).1, r.text ≠ "") :=
  ⟨by decide, extractHeadings_container_records docW1 (by decide)⟩

/-- C2: when the designated (first non-null) container has zero matching
headings but the whole document has some, `extractHeadings` re-queries the
entire document and returns the records of those headings; when the
container does contain matching headings, only the container query feeds the
result. -/
theorem extractHeadings_fallback (doc : Elem) :
    (containerHeadingPaths doc = [] → headingPathsAll doc ≠ [] →
      (extractHeadings doc).1.map (fun r => (r.text, r.level)) =
        (headingPathsAll doc).filterMap (readTextLevel doc))
    ∧ (containerHeadingPaths doc ≠ [] →
      (extractHeadings doc).1.map (fun r => (r.text, r.level)) =
        (containerHeadingPaths doc).filterMap (readTextLevel doc)) := by
  constructor
  · intro hc _
    have hq : headingQueryPaths doc = headingPathsAll doc := by
      unfold headingQueryPaths
      rw [if_pos (by rw [hc]; rfl)]
    rw [extractHeadings_eq, hq]
    exact extractFrom_textLevel (headingPathsAll doc) doc doc 0 rfl
  · intro hc
    have hne : ¬(containerHeadingPaths doc).isEmpty = true := by
      cases hcp : containerHeadingPaths doc
      · exact absurd hcp hc
      · simp
    have hq : headingQueryPaths doc = containerHeadingPaths doc := by
      unfold headingQueryPaths
      rw [if_neg hne]
    rw [extractHeadings_eq, hq]
    exact extractFrom_textLevel (containerHeadingPaths doc) doc doc 0 rfl

/-- Witness for C2: a document where the container is empty and the fallback
fires, and a document where the container query is used. -/
theorem extractHeadings_fallback_witness :
    (containerHeadingPaths docW2a = [] ∧ headingPathsAll docW2a ≠ []
      ∧ (extractHeadings docW2a).1.map (fun r => (r.text, r.level)) =
          (headingPathsAll docW2a).filterMap (readTextLevel docW2a))
    ∧ (containerHeadingPaths docW2b ≠ []
      ∧ (extractHeadings docW2b).1.map (fun r => (r.text, r.level)) =
          (containerHeadingPaths docW2b).filterMap (readTextLevel docW2b)) :=
  ⟨⟨by decide, by decide,
      (extractHeadings_fallback docW2a).1 (by decide) (by decide)⟩,
    ⟨by decide, (extractHeadings_fallback docW2b).2 (by decide)⟩⟩

/-- C3: running `extractHeadings` twice on an otherwise unchanged document
yields identical id fields in both results; a generated `toc-heading-` id is
assigned only where no id was present (and only to heading elements), and an
existing id is never overwritten. -/
theorem extractHeadings_idempotent (doc : Elem) :
    (extractHeadings ((extractHeadings doc).2)).1.map (fun r => r.id) =
      (extractHeadings doc).1.map (fun r => r.id)
    ∧ (∀ q : Path, idAt doc q ≠ "" →
        idAt (extractHeadings doc).2 q = idAt doc q)
    ∧ (∀ q : Path, idAt (extractHeadings doc).2 q ≠ idAt doc q →
        idAt doc q = "" ∧ isHeadingTag (tagAt doc q) = true
          ∧ ∃ j, idAt (extractHeadings doc).2 q = genId j) := by
  have hmask : mask (extractHeadings doc).2 = mask doc :=
    extractFrom_mask (headingQueryPaths doc) doc 0
  refine ⟨?_, ?_, ?_⟩
  · have hsel : selectContainer (extractHeadings doc).2 = selectContainer doc :=
      selectContainer_extractFrom (headingQueryPaths doc) doc 0
    have hcont : containerHeadingPaths (extractHeadings doc).2 =
        containerHeadingPaths doc := by
      unfold containerHeadingPaths
      rw [hsel, headingPathsUnder_congr _ _ hmask]
    have hall : headingPathsAll (extractHeadings doc).2 =
        headingPathsAll doc := headingPathsAll_congr _ _ hmask
    have hq : headingQueryPaths (extractHeadings doc).2 =
        headingQueryPaths doc := by
      unfold headingQueryPaths
      rw [hcont, hall]
    have hpure : extractHeadings ((extractHeadings doc).2) =
        ((headingQueryPaths doc).filterMap
            (readRecord (extractHeadings doc).2),
          (extractHeadings doc).2) := by
      rw [extractHeadings_eq, hq]
      apply extractFrom_pure
      intro p hp e hg htext
      obtain ⟨hvalid, _⟩ := mem_headingQueryPaths doc p hp
      have htextdoc : jsTrim (textAt doc p) ≠ "" := by
        have h1 : textAt (extractHeadings doc).2 p = e.data.text := by
          unfold textAt
          rw [hg]
          rfl
        have h2 : textAt (extractHeadings doc).2 p = textAt doc p :=
          textAt_congr _ _ hmask p
        rw [← h2, h1]
        exact htext
      have hassigned := extractFrom_assigned (headingQueryPaths doc) doc 0
        p hp hvalid htextdoc
      have hide : idAt (extractHeadings doc).2 p = e.data.id := by
        unfold idAt
        rw [hg]
        rfl
      rw [← hide]
      exact hassigned
    have hrun1 : (extractHeadings doc).1 =
        (headingQueryPaths doc).filterMap
          (readRecord (extractHeadings doc).2) := by
      rw [extractHeadings_eq]
      exact extractFrom_records (headingQueryPaths doc) doc 0
    rw [hpure]
    dsimp only
    rw [← hrun1]
  · intro q hq
    exact extractFrom_id_preserve (headingQueryPaths doc) doc 0 q hq
  · intro q hne
    rcases extractFrom_idAt (headingQueryPaths doc) doc 0 q with h1 | ⟨h1, h2, h3⟩
    · exact absurd h1 hne
    · exact ⟨h1, (mem_headingQueryPaths doc q h2).2, h3⟩

/-- Witness for C3 at a concrete document with one pre-set id and one
missing id. -/
theorem extractHeadings_idempotent_witness :
    idAt docW3 [0, 0] ≠ ""
    ∧ idAt (extractHeadings docW3).2 [0, 0] = idAt docW3 [0, 0]
    ∧ (extractHeadings ((extractHeadings docW3).2)).1.map (fun r => r.id) =
        (extractHeadings docW3).1.map (fun r => r.id) :=
  ⟨by decide, (extractHeadings_idempotent docW3).2.1 [0, 0] (by decide),
    (extractHeadings_idempotent docW3).1⟩

/-- A `refreshTOC` call that performed an extraction records its own time as
the new throttle timestamp. -/
theorem refreshTOCRun_newState_of_extract (present force : Bool) (now : Int)
    (st : RefreshState) (scan : List Heading)
    (h : (refreshTOCRun present force now st scan).performedExtraction = true) :
    (refreshTOCRun present force now st scan).newState = ⟨some now⟩ := by
  simp only [refreshTOCRun] at h ⊢
  split
  next hc =>
    rw [if_pos hc] at h
    simp at h
  next hc =>
    rw [if_neg hc] at h
    split
    next hc2 =>
      rw [if_pos hc2] at h
      simp at h
    next hc2 =>
      split <;> rfl

/-- C4: two non-forced `refreshTOC` calls less than 500 ms apart perform at
most one extraction: if the first call extracted, the second is dropped by
the throttle whatever the page then looks like; the two can never both
extract; and a forced call on an initialized sidebar always extracts,
regardless of the time since the previous refresh. -/
theorem refreshTOC_throttle (present1 present2 : Bool) (st : RefreshState)
    (now1 now2 : Int) (scan1 scan2 : List Heading)
    (hgap : now2 - now1 < 500) :
    ((refreshTOCRun present1 false now1 st scan1).performedExtraction = true →
      (refreshTOCRun present2 false now2
        (refreshTOCRun present1 false now1 st scan1).newState
          scan2).performedExtraction = false)
    ∧ ¬((refreshTOCRun present1 false now1 st scan1).performedExtraction = true
        ∧ (refreshTOCRun present2 false now2
            (refreshTOCRun present1 false now1 st scan1).newState
              scan2).performedExtraction = true)
    ∧ (∀ (st' : RefreshState) (n : Int) (scan : List Heading),
        (refreshTOCRun true true n st' scan).performedExtraction = true) := by
  have hforce : ∀ (st' : RefreshState) (n : Int) (scan : List Heading),
      (refreshTOCRun true true n st' scan).performedExtraction = true := by
    intro st' n scan
    have h1 : ¬((!true : Bool) = true) := by decide
    have h2 : ¬((!true && throttleHit st' n) = true) := by simp
    simp only [refreshTOCRun, if_neg h1, if_neg h2]
    split <;> rfl
  have h12 : (refreshTOCRun present1 false now1 st scan1).performedExtraction =
        true →
      (refreshTOCRun present2 false now2
        (refreshTOCRun present1 false now1 st scan1).newState
          scan2).performedExtraction = false := by
    intro h1
    rw [refreshTOCRun_newState_of_extract present1 false now1 st scan1 h1]
    cases present2 with
    | false => rfl
    | true =>
      have hthr : throttleHit ⟨some now1⟩ now2 = true := by
        simp only [throttleHit, decide_eq_true_eq]
        omega
      simp [refreshTOCRun, hthr]
  refine ⟨h12, fun hc => ?_, hforce⟩
  have hf := h12 hc.1
  rw [hc.2] at hf
  exact Bool.noConfusion hf

/-- Witness for C4 at concrete inputs. -/
theorem refreshTOC_throttle_witness :
    (300 : Int) - 0 < 500
    ∧ ((refreshTOCRun true false 0 ⟨none⟩ [⟨"A", 1, "a", 0⟩]).performedExtraction = true →
        (refreshTOCRun true false 300
          (refreshTOCRun true false 0 ⟨none⟩ [⟨"A", 1, "a", 0⟩]).newState
            []).performedExtraction = false) :=
  ⟨by decide, (refreshTOC_throttle true true ⟨none⟩ 0 300 [⟨"A", 1, "a", 0⟩] []
      (by decide)).1⟩

/-- C6: a refresh whose extraction yields zero headings schedules exactly one
delayed retry, 1500 ms later, and builds nothing; and when the retry also
yields zero headings it shows the "No headings found" placeholder and
schedules no further retry. -/
theorem refreshTOC_zero_retry (present force : Bool) (now : Int)
    (st : RefreshState)
    (h : (refreshTOCRun present force now st []).performedExtraction = true) :
    (refreshTOCRun present force now st []).retryDelayMs = some 1500
    ∧ (refreshTOCRun present force now st []).built = none
    ∧ refreshRetryRun [] =
        { built := none, showedNoHeadings := true, retryDelayMs := none } := by
  have hr : refreshTOCRun present force now st [] =
      { performedExtraction := true, built := none, retryDelayMs := some 1500
        newState := ⟨some now⟩, retVal := some false } := by
    simp only [refreshTOCRun] at h ⊢
    split
    next hc =>
      rw [if_pos hc] at h
      simp at h
    next hc =>
      rw [if_neg hc] at h
      split
      next hc2 =>
        rw [if_pos hc2] at h
        simp at h
      next hc2 => simp
  rw [hr]
  exact ⟨rfl, rfl, rfl⟩

/-- Witness for C6 at concrete inputs. -/
theorem refreshTOC_zero_retry_witness :
    (refreshTOCRun true true 0 ⟨none⟩ []).performedExtraction = true
    ∧ (refreshTOCRun true true 0 ⟨none⟩ []).retryDelayMs = some 1500
    ∧ (refreshTOCRun true true 0 ⟨none⟩ []).built = none
    ∧ refreshRetryRun [] =
        { built := none, showedNoHeadings := true, retryDelayMs := none } :=
  ⟨by decide, (refreshTOC_zero_retry true true 0 ⟨none⟩ (by decide)).1,
    (refreshTOC_zero_retry true true 0 ⟨none⟩ (by decide)).2.1,
    (refreshTOC_zero_retry true true 0 ⟨none⟩ (by decide)).2.2⟩

/-- C7: `setPosition(p)` followed by a toggle that lands on visibility `v`
persists both values, and a fresh `initTOC` (a simulated reload) restores
exactly position `p` and visibility `v`. -/
theorem setPosition_persist_restore (dom : SidebarDom) (store : StoredPrefs)
    (p v : String)
    (hp : p = "left" ∨ p = "right")
    (hv : v = "visible" ∨ v = "hidden")
    (hd : ((setPosition p dom store).1).hiddenClass = (v == "visible")) :
    ((toggleTOCSidebar (setPosition p dom store).1
        (setPosition p dom store).2).2.position = some p
      ∧ (toggleTOCSidebar (setPosition p dom store).1
          (setPosition p dom store).2).2.visibility = some v)
    ∧ initTOCSidebar
        (toggleTOCSidebar (setPosition p dom store).1
          (setPosition p dom store).2).2 =
      { leftClass := p == "left", hiddenClass := v == "hidden"
        collapsedLeft := p == "left", collapsedVisible := v == "hidden" } := by
  rcases hp with hp | hp <;> rcases hv with hv | hv <;> subst hp <;> subst hv <;>
    simp_all [setPosition, toggleTOCSidebar, initTOCSidebar]

/-- Witness for C7 at concrete inputs. -/
theorem setPosition_persist_restore_witness :
    (("left" : String) = "left" ∨ ("left" : String) = "right")
    ∧ (("hidden" : String) = "visible" ∨ ("hidden" : String) = "hidden")
    ∧ ((setPosition "left" dom0 store0).1).hiddenClass = ("hidden" == "visible")
    ∧ (((toggleTOCSidebar (setPosition "left" dom0 store0).1
          (setPosition "left" dom0 store0).2).2.position = some "left"
        ∧ (toggleTOCSidebar (setPosition "left" dom0 store0).1
            (setPosition "left" dom0 store0).2).2.visibility = some "hidden")
      ∧ initTOCSidebar
          (toggleTOCSidebar (setPosition "left" dom0 store0).1
            (setPosition "left" dom0 store0).2).2 =
        { leftClass := "left" == "left", hiddenClass := "hidden" == "hidden"
          collapsedLeft := "left" == "left"
          collapsedVisible := "hidden" == "hidden" }) :=
  ⟨Or.inl rfl, Or.inr rfl, by decide,
    setPosition_persist_restore dom0 store0 "left" "hidden" (Or.inl rfl)
      (Or.inr rfl) (by decide)⟩

/-- Project a chain of timed observer events to the chain of their times. -/
theorem chain_times (a : Int × List MutationRecord)
    (l : List (Int × List MutationRecord))
    (h : List.Chain (fun x y => x.1 ≤ y.1 ∧ y.1 - x.1 < 2000) a l) :
    List.Chain (fun x y => x ≤ y ∧ y - x < 2000) a.1
      (l.map (fun e => e.1)) := by
  induction l generalizing a with
  | nil => simp
  | cons b l ih =>
    rw [List.chain_cons] at h
    exact List.Chain.cons h.1 (ih b h.2)

/-- With a timer pending 2000 ms after time `t0` and every following relevant
event arriving less than 2000 ms after its predecessor, the debounced
observer fires exactly once, 2000 ms after the last event. -/
theorem observerRun_pending (evs : List (Int × List MutationRecord)) :
    ∀ t0 : Int,
      (∀ ev ∈ evs, hasRelevantChanges ev.2 = true) →
      List.Chain (fun x y => x ≤ y ∧ y - x < 2000) t0
        (evs.map (fun e => e.1)) →
      observerRun (some (t0 + 2000)) evs =
        [(evs.map (fun e => e.1)).getLastD t0 + 2000] := by
  induction evs with
  | nil =>
    intro t0 _ _
    simp [observerRun]
  | cons e rest ih =>
    intro t0 hrel hchain
    obtain ⟨t, ms⟩ := e
    rw [List.map_cons, List.chain_cons] at hchain
    have hr : hasRelevantChanges ms = true := hrel (t, ms) (by simp)
    have hlt : ¬(t0 + 2000 ≤ t) := by
      have h1 := hchain.1
      omega
    simp only [observerRun, hr, if_true, if_neg hlt]
    rw [ih t (fun ev hev => hrel ev (by simp [hev])) hchain.2]
    rw [List.map_cons, List.getLastD_cons]

/-- Bridge from `getLast?` to `getLastD` over the projected times. -/
theorem getLastD_map_time (l : List (Int × List MutationRecord)) :
    ∀ (a b : Int × List MutationRecord), (a :: l).getLast? = some b →
      (l.map (fun e => e.1)).getLastD a.1 = b.1 := by
  induction l with
  | nil =>
    intro a b h
    simp only [List.getLast?_singleton, Option.some.injEq] at h
    subst h
    simp
  | cons c l ih =>
    intro a b h
    rw [List.getLast?_cons_cons] at h
    simp only [List.map_cons, List.getLastD_cons]
    exact ih c b h

/-- C5: a nonempty burst of relevant childList mutations, each arriving less
than 2 seconds after the previous one and starting with no timer pending,
makes the debounced monitor fire exactly one refresh, 2000 ms after the last
mutation of the burst — never one refresh per mutation and never zero. -/
theorem mutation_debounce (evs : List (Int × List MutationRecord))
    (elast : Int × List MutationRecord)
    (hlast : evs.getLast? = some elast)
    (hrel : ∀ ev ∈ evs, hasRelevantChanges ev.2 = true)
    (hchain : evs.Chain' (fun x y => x.1 ≤ y.1 ∧ y.1 - x.1 < 2000)) :
    observerRun none evs = [elast.1 + 2000] := by
  cases evs with
  | nil => simp at hlast
  | cons e rest =>
    obtain ⟨t, ms⟩ := e
    have hr : hasRelevantChanges ms = true := hrel (t, ms) (by simp)
    have hchain2 :
        List.Chain (fun x y => x.1 ≤ y.1 ∧ y.1 - x.1 < 2000) (t, ms) rest :=
      hchain
    simp only [observerRun, hr, if_true]
    rw [observerRun_pending rest t (fun ev hev => hrel ev (by simp [hev]))
      (chain_times (t, ms) rest hchain2)]
    rw [getLastD_map_time rest (t, ms) elast hlast]

/-- Witness for C5 at a concrete three-mutation burst. -/
theorem mutation_debounce_witness :
    ([((0 : Int), [mutW]), (1500, [mutW]), (2500, [mutW])].getLast? =
        some (2500, [mutW]))
    ∧ (∀ ev ∈ [((0 : Int), [mutW]), (1500, [mutW]), (2500, [mutW])],
        hasRelevantChanges ev.2 = true)
    ∧ List.Chain' (fun x y => x.1 ≤ y.1 ∧ y.1 - x.1 < 2000)
        [((0 : Int), [mutW]), (1500, [mutW]), (2500, [mutW])]
    ∧ observerRun none [((0 : Int), [mutW]), (1500, [mutW]), (2500, [mutW])] =
        [2500 + 2000] :=
  ⟨rfl, fun ev hev => by fin_cases hev <;> rfl,
    by
      refine List.Chain'.cons ⟨by norm_num, by norm_num⟩ ?_
      exact List.Chain'.cons ⟨by norm_num, by norm_num⟩ (List.chain'_singleton _),
    mutation_debounce [((0 : Int), [mutW]), (1500, [mutW]), (2500, [mutW])]
      (2500, [mutW]) rfl (fun ev hev => by fin_cases hev <;> rfl)
      (by
        refine List.Chain'.cons ⟨by norm_num, by norm_num⟩ ?_
        exact List.Chain'.cons ⟨by norm_num, by norm_num⟩
          (List.chain'_singleton _))⟩

/-- C10: with no persisted position preference and the sidebar element
absent or not displayed, `getCurrentPosition` returns "right". -/
theorem getCurrentPosition_default (sidebar : Option SidebarView)
    (store : StoredPrefs)
    (hpos : store.position = none)
    (hsb : sidebar = none ∨
      ∃ sb, sidebar = some sb ∧ sb.computedDisplay = "none") :
    getCurrentPosition sidebar store = "right" := by
  rcases hsb with h | ⟨sb, h, hd⟩
  · subst h
    simp [getCurrentPosition, storedPositionOrRight, hpos]
  · subst h
    simp [getCurrentPosition, storedPositionOrRight, hpos, hd]

/-- Witness for C10 at concrete inputs. -/
theorem getCurrentPosition_default_witness :
    store0.position = none
    ∧ getCurrentPosition (some ⟨true, "none"⟩) store0 = "right" :=
  ⟨rfl,
    getCurrentPosition_default (some ⟨true, "none"⟩) store0 rfl
      (Or.inr ⟨⟨true, "none"⟩, rfl, rfl⟩)⟩

/-- C8 counterexample: a relay for a page that is *not recorded* as injected
but whose agent still answers the readiness ping performs zero injection
attempts and succeeds, contradicting the claim that every relay for a page
not yet recorded as injected performs exactly one injection attempt. -/
theorem host_relay_counterexample :
    ((handleContentScriptActionRun false
        ⟨some true, true, some ⟨true, none⟩⟩ "toggleTOC").1.count
      HostEv.injectAttempt) = 0
    ∧ (handleContentScriptActionRun false
        ⟨some true, true, some ⟨true, none⟩⟩ "toggleTOC").2.success = true := by
  decide

/-- C8 (amended): a relay for a page recorded as injected performs zero
injection attempts and forwards exactly the translated action; for a page
not recorded as injected whose readiness ping goes unanswered, the
coordinator performs exactly one injection attempt followed by a single send
of the translated action, reporting a structured failure when that send hits
a channel error, and reports a structured failure after the single injection
attempt (with no send) when injection fails; the translation maps toggleTOC
to toggle and refreshTOC to refresh. -/
theorem host_relay (env : TabEnv) (a : String) :
    (handleContentScriptActionRun true env a).1 =
      [HostEv.actionSent (mapAction a)]
    ∧ (env.pingReply = none → env.injectOk = true →
        (handleContentScriptActionRun false env a).1 =
          [HostEv.pingSent, HostEv.injectAttempt,
            HostEv.actionSent (mapAction a)])
    ∧ (env.pingReply = none → env.injectOk = true → env.actionReply = none →
        (handleContentScriptActionRun false env a).2.success = false)
    ∧ (env.pingReply = none → env.injectOk = false →
        (handleContentScriptActionRun false env a).1 =
          [HostEv.pingSent, HostEv.injectAttempt]
        ∧ (handleContentScriptActionRun false env a).2.success = false) := by
  obtain ⟨pr, io, ar⟩ := env
  refine ⟨?_, ?_, ?_, ?_⟩
  · cases ar <;>
      simp [handleContentScriptActionRun, checkContentScriptStatusRun]
  · intro hp hi
    subst hp
    subst hi
    cases ar <;>
      simp [handleContentScriptActionRun, checkContentScriptStatusRun]
  · intro hp hi ha
    subst hp
    subst hi
    subst ha
    simp [handleContentScriptActionRun, checkContentScriptStatusRun]
  · intro hp hi
    subst hp
    subst hi
    cases ar <;>
      simp [handleContentScriptActionRun, checkContentScriptStatusRun]

/-- Witness for C8 at concrete environments (injection succeeding with a
dead channel, and injection failing). -/
theorem host_relay_witness :
    ((⟨none, true, none⟩ : TabEnv).pingReply = none
      ∧ (⟨none, true, none⟩ : TabEnv).injectOk = true
      ∧ (handleContentScriptActionRun false ⟨none, true, none⟩ "refreshTOC").1 =
          [HostEv.pingSent, HostEv.injectAttempt,
            HostEv.actionSent (mapAction "refreshTOC")]
      ∧ (handleContentScriptActionRun false
          ⟨none, true, none⟩ "refreshTOC").2.success = false)
    ∧ ((⟨none, false, none⟩ : TabEnv).injectOk = false
      ∧ (handleContentScriptActionRun false ⟨none, false, none⟩ "toggleTOC").1 =
          [HostEv.pingSent, HostEv.injectAttempt]
      ∧ (handleContentScriptActionRun false
          ⟨none, false, none⟩ "toggleTOC").2.success = false) :=
  ⟨⟨rfl, rfl,
      (host_relay ⟨none, true, none⟩ "refreshTOC").2.1 rfl rfl,
      (host_relay ⟨none, true, none⟩ "refreshTOC").2.2.1 rfl rfl rfl⟩,
    ⟨rfl,
      ((host_relay ⟨none, false, none⟩ "toggleTOC").2.2.2 rfl rfl).1,
      ((host_relay ⟨none, false, none⟩ "toggleTOC").2.2.2 rfl rfl).2⟩⟩

/-- The auto-refresh loop never performs more refreshes than the larger of
its starting count and 3. -/
theorem performRefreshRun_le (views : List AutoRefreshView) :
    ∀ count : Nat, (performRefreshRun count views).1 ≤ max count 3 := by
  induction views with
  | nil =>
    intro count
    simp [performRefreshRun]
  | cons v rest ih =>
    intro count
    simp only [performRefreshRun]
    split
    next hc =>
      show count ≤ max count 3
      omega
    next hc =>
      have hcount : count < 3 := by
        by_contra hge
        have hge' : (3 : Nat) ≤ count := Nat.le_of_not_lt hge
        exact hc (by simp [hge'])
      split
      next =>
        show count ≤ max count 3
        omega
      next =>
        split
        next h3 =>
          have hrec := ih (count + 1)
          show (performRefreshRun (count + 1) rest).1 ≤ max count 3
          omega
        next h3 =>
          show count + 1 ≤ max count 3
          omega

/-- Every delay the auto-refresh loop schedules is 5000 ms. -/
theorem performRefreshRun_delays (views : List AutoRefreshView) :
    ∀ (count : Nat) (d : Nat), d ∈ (performRefreshRun count views).2 →
      d = 5000 := by
  induction views with
  | nil =>
    intro count d hd
    simp [performRefreshRun] at hd
  | cons v rest ih =>
    intro count d hd
    simp only [performRefreshRun] at hd
    split at hd
    · simp at hd
    · split at hd
      · simp at hd
      · split at hd
        · simp only [List.mem_cons] at hd
          rcases hd with hd | hd
          · exact hd
          · exact ih (count + 1) d hd
        · simp at hd

/-- C9 counterexample: while the page is still scanning (loading placeholder
shown, "no headings" placeholder hidden throughout) the code performs all 3
refreshes, whereas the claim's stopping rule — stop early because the "no
headings" placeholder is not shown — performs none; conversely, with the
"no headings" placeholder displayed and the loading placeholder hidden, the
code stops immediately with zero refreshes even though the claim says the
sequence only stops once that placeholder is no longer shown. -/
theorem autoRefresh_counterexample :
    (autoRefreshAfterPageLoad
        [⟨true, "block", "none"⟩, ⟨true, "block", "none"⟩,
          ⟨true, "block", "none"⟩]).1 = 3
    ∧ claimPerformRefreshRun 0
        [⟨true, "block", "none"⟩, ⟨true, "block", "none"⟩,
          ⟨true, "block", "none"⟩] = 0
    ∧ (autoRefreshAfterPageLoad [⟨true, "none", "block"⟩]).1 = 0 := by
  decide

/-- C9 (amended): the bounded auto-refresh sequence performs at most 3
refresh attempts, at fixed 5000 ms intervals, and stops early as soon as the
loading ("Scanning...") placeholder is no longer displayed (or its element
is gone); it never exceeds 3 attempts regardless of what the page shows. -/
theorem autoRefreshAfterPageLoad_bounded (views : List AutoRefreshView) :
    (autoRefreshAfterPageLoad views).1 ≤ 3
    ∧ (∀ (count : Nat) (v : AutoRefreshView) (rest : List AutoRefreshView),
        v.loadingDisplay = "none" →
          performRefreshRun count (v :: rest) = (count, []))
    ∧ (∀ d ∈ (autoRefreshAfterPageLoad views).2, d = 5000) := by
  refine ⟨?_, ?_, ?_⟩
  · have := performRefreshRun_le views 0
    simpa [autoRefreshAfterPageLoad] using this
  · intro count v rest hv
    simp only [performRefreshRun]
    split
    next => rfl
    next => rw [if_pos (by simp [hv])]
  · intro d hd
    exact performRefreshRun_delays views 0 d hd

/-- Witness for C9 (amended) at a concrete view sequence. -/
theorem autoRefreshAfterPageLoad_bounded_witness :
    (autoRefreshAfterPageLoad
        [⟨true, "block", "none"⟩, ⟨true, "none", "none"⟩]).1 ≤ 3
    ∧ ((⟨true, "none", "none"⟩ : AutoRefreshView).loadingDisplay = "none"
      ∧ performRefreshRun 1 [⟨true, "none", "none"⟩] = (1, [])) :=
  ⟨(autoRefreshAfterPageLoad_bounded
      [⟨true, "block", "none"⟩, ⟨true, "none", "none"⟩]).1,
    rfl,
    (autoRefreshAfterPageLoad_bounded []).2.1 1 ⟨true, "none", "none"⟩ [] rfl⟩

end GenTOC
